import Mathlib

/-!
# Verification of the AutoAgent workflow core

A shallow embedding of the core subsystems of the AutoAgent repository:

* `Routing` — `Utils/routing_module.py` (`Router._create_routing_function`);
* `Pool` — `Agents/Browser_Agent.py` (`BrowserAgentHandler`: browser/context
  pool with capacity limits and cleanup);
* `Interrupt` — `Agents/custom_controllers/Interrup_controller.py`
  (pending-request registry, resolution, timeout, bulk cancellation);
* `Agent` — `Agents/main_agent.py` (`AutoAgent.executor_node` interruption
  branch and `human_node`).

Python dictionaries are modelled as association lists that keep insertion
order (`alSet` updates an existing key in place and appends a new key at the
end, exactly as a Python `dict` does); `uuid.uuid4()` fresh-name generation is
modelled by a monotone counter; exceptions are modelled with `Except` or with
explicit status results where the source catches them.
-/

/-- Association-list lookup, modelling Python `d.get(k)` / `d[k]`. -/
def alGet {κ α : Type} [DecidableEq κ] (m : List (κ × α)) (k : κ) : Option α :=
  match m with
  | [] => none
  | (k', v) :: rest => if k' = k then some v else alGet rest k

/-- Association-list update, modelling Python `d[k] = v`: an existing key is
updated in place (its position is kept), a new key is appended at the end. -/
def alSet {κ α : Type} [DecidableEq κ] (m : List (κ × α)) (k : κ) (v : α) :
    List (κ × α) :=
  match m with
  | [] => [(k, v)]
  | (k', v') :: rest => if k' = k then (k, v) :: rest else (k', v') :: alSet rest k v

/-- Association-list deletion, modelling Python `del d[k]`. -/
def alDel {κ α : Type} [DecidableEq κ] (m : List (κ × α)) (k : κ) :
    List (κ × α) :=
  match m with
  | [] => []
  | (k', v') :: rest => if k' = k then alDel rest k else (k', v') :: alDel rest k

theorem alGet_alSet_self {κ α : Type} [DecidableEq κ]
    (m : List (κ × α)) (k : κ) (v : α) : alGet (alSet m k v) k = some v := by
  induction m with
  | nil => simp [alSet, alGet]
  | cons hd tl ih =>
    by_cases h : hd.1 = k
    · simp [alSet, alGet, h]
    · simp [alSet, alGet, h, ih]

theorem alGet_alSet_ne {κ α : Type} [DecidableEq κ]
    (m : List (κ × α)) (k k' : κ) (v : α) (hne : k ≠ k') :
    alGet (alSet m k v) k' = alGet m k' := by
  induction m with
  | nil => simp [alSet, alGet, hne]
  | cons hd tl ih =>
    by_cases h : hd.1 = k
    · simp [alSet, alGet, h, hne]
    · simp only [alSet, alGet, h, if_false]
      by_cases h' : hd.1 = k'
      · simp [alGet, h']
      · simp [alGet, h', ih]

theorem alGet_alDel_self {κ α : Type} [DecidableEq κ]
    (m : List (κ × α)) (k : κ) : alGet (alDel m k) k = none := by
  induction m with
  | nil => simp [alDel, alGet]
  | cons hd tl ih =>
    by_cases h : hd.1 = k
    · simp [alDel, h, ih]
    · simp [alDel, alGet, h, ih]

theorem alGet_alDel_ne {κ α : Type} [DecidableEq κ]
    (m : List (κ × α)) (k k' : κ) (hne : k ≠ k') :
    alGet (alDel m k) k' = alGet m k' := by
  induction m with
  | nil => simp [alDel]
  | cons hd tl ih =>
    have hne' : k' ≠ k := Ne.symm hne
    by_cases h : hd.1 = k
    · simp [alDel, alGet, h, hne, ih]
    · by_cases h' : hd.1 = k'
      · simp [alDel, alGet, h, h', hne']
      · simp [alDel, alGet, h, h', ih]

theorem alSet_length_of_mem {κ α : Type} [DecidableEq κ]
    (m : List (κ × α)) (k : κ) (v : α) (h : (alGet m k).isSome) :
    (alSet m k v).length = m.length := by
  induction m with
  | nil => simp [alGet] at h
  | cons hd tl ih =>
    by_cases hk : hd.1 = k
    · simp [alSet, hk]
    · simp only [alGet, hk, if_false] at h
      simp [alSet, hk, ih h]

theorem alSet_length_le {κ α : Type} [DecidableEq κ]
    (m : List (κ × α)) (k : κ) (v : α) :
    (alSet m k v).length ≤ m.length + 1 := by
  induction m with
  | nil => simp [alSet]
  | cons hd tl ih =>
    by_cases hk : hd.1 = k
    · simp [alSet, hk]
    · simp only [alSet, hk, if_false, List.length_cons]
      omega

theorem alSet_length_of_not_mem {κ α : Type} [DecidableEq κ]
    (m : List (κ × α)) (k : κ) (v : α) (h : alGet m k = none) :
    (alSet m k v).length = m.length + 1 := by
  induction m with
  | nil => simp [alSet]
  | cons hd tl ih =>
    by_cases hk : hd.1 = k
    · simp [alGet, hk] at h
    · simp only [alGet, hk, if_false] at h
      simp [alSet, hk, ih h]

/-- Association-list in-place value update of the (first) entry holding key
`k`, modelling Python `d[k].f(...)` / `d[k][sub] = v` on a dict (whose keys
are unique, so at most one entry is affected). -/
def alModify {κ α : Type} [DecidableEq κ] (m : List (κ × α)) (k : κ)
    (f : α → α) : List (κ × α) :=
  match m with
  | [] => []
  | (k', v) :: rest =>
    if k' = k then (k', f v) :: rest else (k', v) :: alModify rest k f

theorem alModify_map_fst {κ α : Type} [DecidableEq κ]
    (m : List (κ × α)) (k : κ) (f : α → α) :
    (alModify m k f).map Prod.fst = m.map Prod.fst := by
  induction m with
  | nil => simp [alModify]
  | cons hd tl ih =>
    by_cases hk : hd.1 = k
    · simp [alModify, hk]
    · simp [alModify, hk, ih]

theorem alModify_length {κ α : Type} [DecidableEq κ]
    (m : List (κ × α)) (k : κ) (f : α → α) :
    (alModify m k f).length = m.length := by
  have h := congrArg List.length (alModify_map_fst m k f)
  simpa using h

theorem alModify_of_alGet_none {κ α : Type} [DecidableEq κ]
    (m : List (κ × α)) (k : κ) (f : α → α) (h : alGet m k = none) :
    alModify m k f = m := by
  induction m with
  | nil => simp [alModify]
  | cons hd tl ih =>
    by_cases hk : hd.1 = k
    · simp [alGet, hk] at h
    · simp only [alGet, hk, if_false] at h
      simp [alModify, hk, ih h]

/-- Splitting view: if `k` is bound then the list splits around its first
occurrence, and `alModify` rewrites exactly that occurrence. -/
theorem alModify_split {κ α : Type} [DecidableEq κ]
    (m : List (κ × α)) (k : κ) (f : α → α) (v : α) (h : alGet m k = some v) :
    ∃ m1 m2, m = m1 ++ (k, v) :: m2 ∧ alGet m1 k = none ∧
      alModify m k f = m1 ++ (k, f v) :: m2 := by
  induction m with
  | nil => simp [alGet] at h
  | cons hd tl ih =>
    by_cases hk : hd.1 = k
    · obtain ⟨k0, v0⟩ := hd
      simp only at hk
      subst hk
      have hv : v0 = v := by
        have h' := h
        simp [alGet] at h'
        exact h'
      subst hv
      exact ⟨[], tl, by simp, by simp [alGet], by simp [alModify]⟩
    · simp only [alGet, hk, if_false] at h
      obtain ⟨m1, m2, hm, hnone, hmod⟩ := ih h
      exact ⟨hd :: m1, m2, by simp [hm], by simp [alGet, hk, hnone],
        by simp [alModify, hk, hmod]⟩

theorem alGet_alModify_self {κ α : Type} [DecidableEq κ]
    (m : List (κ × α)) (k : κ) (f : α → α) :
    alGet (alModify m k f) k = (alGet m k).map f := by
  induction m with
  | nil => simp [alModify, alGet]
  | cons hd tl ih =>
    by_cases hk : hd.1 = k
    · simp [alModify, alGet, hk]
    · simp [alModify, alGet, hk, ih]

theorem alGet_alModify_ne {κ α : Type} [DecidableEq κ]
    (m : List (κ × α)) (k k' : κ) (f : α → α) (hne : k ≠ k') :
    alGet (alModify m k f) k' = alGet m k' := by
  induction m with
  | nil => simp [alModify]
  | cons hd tl ih =>
    have hne' : k' ≠ k := Ne.symm hne
    by_cases hk : hd.1 = k
    · simp [alModify, alGet, hk, hne]
    · by_cases hk' : hd.1 = k'
      · simp [alModify, alGet, hk, hk', hne']
      · simp [alModify, alGet, hk, hk', ih]

theorem alGet_append {κ α : Type} [DecidableEq κ]
    (m1 m2 : List (κ × α)) (k : κ) :
    alGet (m1 ++ m2) k =
      match alGet m1 k with
      | some v => some v
      | none => alGet m2 k := by
  induction m1 with
  | nil => simp [alGet]
  | cons hd tl ih =>
    by_cases hk : hd.1 = k
    · simp [alGet, hk]
    · simp [alGet, hk, ih]

theorem alGet_eq_of_mem_nodup {κ α : Type} [DecidableEq κ]
    (m : List (κ × α)) (k : κ) (v : α)
    (hnd : (m.map Prod.fst).Nodup) (hmem : (k, v) ∈ m) :
    alGet m k = some v := by
  induction m with
  | nil => simp at hmem
  | cons hd tl ih =>
    simp only [List.map_cons, List.nodup_cons] at hnd
    rcases List.mem_cons.mp hmem with heq | htl
    · cases heq
      simp [alGet]
    · have hk : hd.1 ≠ k := by
        intro hc
        exact hnd.1 (hc ▸ (List.mem_map.mpr ⟨(k, v), htl, rfl⟩))
      simp [alGet, hk, ih hnd.2 htl]

/-!
## Routing module (`Utils/routing_module.py`) and agent state (`Agents/main_agent.py`)

`Router._create_routing_function(from_node)` returns a closure
`routing_function(state)` that

* reads `state.route_config[from_node]` (a raw dict lookup, performed
  *before* the `try:` block — a missing key raises a plain Python
  `KeyError`);
* if `config.send` is true, returns one `Send(config.send_to,
  {"internal_state": ist})` per element of `state.send_list.get(from_node, [])`;
* otherwise returns the elements of `config.conditional_nodes` that occur in
  `state.routes.get(from_node, [])`, in the order of `conditional_nodes`
  (the `hasattr(state, 'routes')` guard is always true for `AutoAgentState`,
  which declares the field with a default).

The module also defines `RouteConfigurationError` and `RouteNotFoundError`;
neither is raised by `routing_function` (the only `raise` inside the `try`
wraps an exception as `RouterException`, and no statement inside the `try`
can raise for well-typed states).
-/

/-- `routing_module.InternalState`: opaque per-sibling sub-state (its `data`
dict). -/
structure InternalState where
  data : List (String × String) := []
deriving DecidableEq, Repr

/-- `routing_module.RouteConfig` (pydantic model). -/
structure RouteConfig where
  from_node : String
  direct_nodes : List String := []
  conditional_nodes : List String := []
  send : Bool := false
  send_to : Option String := none
deriving DecidableEq, Repr

/-- `main_agent.ProcessContext`. -/
structure ProcessContext where
  process_history : List String := []
  next_step : Option String := none
deriving DecidableEq, Repr

/-- `main_agent.AutoAgentState` (the fields the core subsystems read or
write; message/thought/task bookkeeping that no claim touches is carried as
`tasks`, the last entry of which `executor_node` reads). -/
structure AutoAgentState where
  user_task : String
  routes : List (String × List String) := []
  route_config : List (String × RouteConfig) := []
  send_list : List (String × List InternalState) := []
  tasks : List String := []
  step : Nat := 0
  waiting : Bool := false
  question : Option String := none
  process_context : Option ProcessContext := none
  context_id : String
  input : List (String × String) := []
  results : Option String := none
deriving DecidableEq, Repr

/-- The errors a routing call can surface: a raw Python `KeyError` (from the
`state.route_config[from_node]` lookup outside the `try`), the wrapped
`RouterException`, and the two module-defined errors `RouteConfigurationError`
/ `RouteNotFoundError` (declared in the source, reachable only from other
entry points). -/
inductive RouterErr where
  | pyKeyError (key : String)
  | routerException (from_node : String)
  | routeConfigurationError (msg : String)
  | routeNotFoundError (msg : String)
deriving DecidableEq, Repr

/-- `langgraph.types.Send(node, {"internal_state": ist})` as constructed by
the fan-out branch. -/
structure SendPacket where
  node : Option String
  internal_state : InternalState
deriving DecidableEq, Repr

/-- Result of one routing call: a list of next-node names, or a list of
fan-out dispatches. -/
inductive RouteResult where
  | nodes (ns : List String)
  | sends (ps : List SendPacket)
deriving DecidableEq, Repr

/-- `Router._create_routing_function(from_node)`'s inner
`routing_function(state)`. -/
def routing_function (from_node : String) (state : AutoAgentState) :
    Except RouterErr RouteResult :=
  match alGet state.route_config from_node with
  | none => .error (.pyKeyError from_node)
  | some config =>
    if config.send then
      .ok (.sends (((alGet state.send_list from_node).getD []).map
        (fun ist => { node := config.send_to, internal_state := ist })))
    else
      .ok (.nodes (config.conditional_nodes.filter
        (fun n => ((alGet state.routes from_node).getD []).contains n)))

/-!
## Session/context pool (`Agents/Browser_Agent.py`, `BrowserAgentHandler`)

The handler keeps

* `_browsers : dict[browser_id, {"browser": ..., "contexts": dict[context_id, context]}]`,
* `_context_to_browser : dict[context_id, browser_id]`.

`uuid.uuid4()` identifiers are modelled by a monotone counter `nextId`
(browser ids are the counter values themselves; generated context ids are
`"uuid-" ++ toString counter`); every freshly created context object is
stamped with a counter value so distinct creations yield distinct contexts.
The opaque external handle is modelled by a `closeOk` flag saying whether
`context.close()` on it succeeds or raises.  The `_context_to_agent` and
`_input_queues` dicts play no role in the claims about the pool and are not
modelled.

`create_context` wraps every failure in `RuntimeError("Context creation
failed: ...")`; in the modelled fragment the only failure source is
`_create_browser`'s `RuntimeError("Maximum number of browsers ... reached")`,
so the error type has a single `resourcePoolExhausted` constructor for this
wrapped error (plus the `KeyError` that `get_context`'s raw dict lookups
could raise on an inconsistent pool).
-/

/-- One browser context object: a creation stamp (object identity) and
whether closing its external handle succeeds. -/
structure Ctx where
  stamp : Nat
  closeOk : Bool := true
deriving DecidableEq, Repr

/-- The per-browser record `{"browser": ..., "contexts": {...}}` (the browser
handle itself is opaque and not needed). -/
structure BrowserData where
  contexts : List (String × Ctx) := []
deriving DecidableEq, Repr

/-- The pool state of a `BrowserAgentHandler`. -/
structure Pool where
  maxBrowsers : Nat
  maxContexts : Nat
  browsers : List (Nat × BrowserData) := []
  contextToBrowser : List (String × Nat) := []
  nextId : Nat := 0
deriving DecidableEq, Repr

/-- Errors surfaced by the modelled pool operations. -/
inductive PoolErr where
  | resourcePoolExhausted
  | pyKeyError
deriving DecidableEq, Repr

/-- A freshly `__init__`-ed handler with the given limits. -/
def Pool.init (maxBrowsers maxContexts : Nat) : Pool :=
  { maxBrowsers := maxBrowsers, maxContexts := maxContexts }

/-- `BrowserAgentHandler._create_browser`: refuse if the browser limit is
reached, else append a fresh browser with an empty context dict. -/
def create_browser (s : Pool) : Except PoolErr (Nat × Pool) :=
  if s.maxBrowsers ≤ s.browsers.length then
    .error .resourcePoolExhausted
  else
    .ok (s.nextId,
      { s with browsers := s.browsers ++ [(s.nextId, {})],
               nextId := s.nextId + 1 })

/-- `BrowserAgentHandler.get_available_browser`: first browser (in creation
order) with spare context capacity, else create a new browser. -/
def get_available_browser (s : Pool) : Except PoolErr (Nat × Pool) :=
  match s.browsers.find? (fun p => p.2.contexts.length < s.maxContexts) with
  | some p => .ok (p.1, s)
  | none => create_browser s

/-- `BrowserAgentHandler.create_context`: pick an available browser
(creating one if needed), generate a context id when none is supplied,
create the context object, and register it in the browser's context dict and
in `_context_to_browser`. -/
def create_context (s : Pool) (octx : Option String) :
    Except PoolErr (String × Pool) :=
  match get_available_browser s with
  | .error e => .error e
  | .ok (bid, s1) =>
    let cid := match octx with
      | some c => c
      | none => "uuid-" ++ toString s1.nextId
    let s2 := match octx with
      | some _ => s1
      | none => { s1 with nextId := s1.nextId + 1 }
    let ctx : Ctx := { stamp := s2.nextId }
    let s3 := { s2 with
      nextId := s2.nextId + 1,
      browsers := alModify s2.browsers bid
        (fun bd => { contexts := alSet bd.contexts cid ctx }),
      contextToBrowser := alSet s2.contextToBrowser cid bid }
    .ok (cid, s3)

/-- `BrowserAgentHandler.get_context`: if the id is unknown, transparently
`create_context(context_id=context_id)` first; then follow
`_context_to_browser` and return `browsers[bid]["contexts"].get(cid)`. -/
def get_context (s : Pool) (cid : String) : Except PoolErr (Option Ctx × Pool) :=
  match (match alGet s.contextToBrowser cid with
         | none => (create_context s (some cid)).map (fun (r : String × Pool) => r.2)
         | some _ => .ok s) with
  | .error e => .error e
  | .ok s1 =>
    match alGet s1.contextToBrowser cid with
    | none => .error .pyKeyError
    | some bid =>
      match alGet s1.browsers bid with
      | none => .error .pyKeyError
      | some bdata => .ok (alGet bdata.contexts cid, s1)

/-- Observable steps of `close_context`, in program order: the
`context.close()` call on the external handle (with its outcome), removal
from the owning browser's context dict, removal from
`_context_to_browser`. -/
inductive CloseEv where
  | closeHandle (cid : String) (ok : Bool)
  | removeFromSession (cid : String)
  | removeFromIndex (cid : String)
deriving DecidableEq, Repr

/-- `BrowserAgentHandler.close_context`: unknown id → warn and return
`False`; otherwise `await context.close()` FIRST, and only on success delete
the context from the browser's dict and from `_context_to_browser`; any
exception (including one from `close()`) is caught, logged, and `False` is
returned with no cleanup performed. -/
def close_context (s : Pool) (cid : String) : Pool × List CloseEv × Bool :=
  match alGet s.contextToBrowser cid with
  | none => (s, [], false)
  | some bid =>
    match alGet s.browsers bid with
    | none => (s, [], false)
    | some bdata =>
      match alGet bdata.contexts cid with
      | none => (s, [], false)
      | some ctx =>
        if ctx.closeOk then
          ({ s with
             browsers := alModify s.browsers bid
               (fun bd => { contexts := alDel bd.contexts cid }),
             contextToBrowser := alDel s.contextToBrowser cid },
           [.closeHandle cid true, .removeFromSession cid, .removeFromIndex cid],
           true)
        else
          (s, [.closeHandle cid false], false)

/-- The documented pool capacity invariant: at most `maxBrowsers` browsers,
each with at most `maxContexts` contexts. -/
def PoolInv (s : Pool) : Prop :=
  s.browsers.length ≤ s.maxBrowsers ∧
  ∀ p ∈ s.browsers, p.2.contexts.length ≤ s.maxContexts

instance (s : Pool) : Decidable (PoolInv s) := by
  unfold PoolInv; infer_instance

/-- "The pool holds `maxSessions` sessions all of which are at full context
capacity." -/
def PoolFull (s : Pool) : Prop :=
  s.browsers.length = s.maxBrowsers ∧
  ∀ p ∈ s.browsers, s.maxContexts ≤ p.2.contexts.length

instance (s : Pool) : Decidable (PoolFull s) := by
  unfold PoolFull; infer_instance

/-- One `allocateContext` call of a call sequence: on an exception the pool
state is unchanged (`_create_browser` raises before mutating anything). -/
def allocStep (s : Pool) (octx : Option String) : Pool :=
  match create_context s octx with
  | .ok r => r.2
  | .error _ => s

/-- A whole sequence of `allocateContext` calls. -/
def allocRun (s : Pool) (calls : List (Option String)) : Pool :=
  calls.foldl allocStep s

/-- Total number of live contexts across the pool. -/
def countContexts (s : Pool) : Nat :=
  (s.browsers.map (fun p => p.2.contexts.length)).sum

/-!
## Interrupt/resume correlator (`Agents/custom_controllers/Interrup_controller.py`)

Module-level state: `_pending_requests : dict[request_id, asyncio.Future]`
(plus `_connected_clients` and `_websocket_server`, which only matter for
broadcasting and are not load-bearing for the claims).  Futures are shared
between the registry and the waiting `get_human_in_loop` caller, so they are
modelled through a heap `futures : fut_id → FutSt`, with `pendingReqs`
mapping request ids to future ids.

The event loop is single-threaded, so each of the following runs atomically:

* the `input_response` branch of `_handle_client` (`handle_input_response`):
  if the id is registered, set the result when the future is not yet done,
  then delete the registry entry; otherwise only log a warning — this branch
  contains no `raise`, and `_handle_client` additionally catches every
  exception, hence resolution never raises to the client delivering the
  response (the function below is total and returns a `warned` flag instead);
* the `asyncio.TimeoutError` branch of `get_human_in_loop` (`timeout_fire`):
  `asyncio.wait_for` cancels the still-pending future, the branch deletes
  the registry entry if present and re-raises `TimeoutError`;
* the cancellation sweep of `stop_websocket_server` (`cancel_all`, modelled
  for a running server): `set_exception(CancelledError)` on every not-done
  registered future, then `_pending_requests.clear()`.
-/

/-- The state of one `asyncio.Future`. -/
inductive FutSt where
  | pending
  | value (v : String)
  | cancelled
deriving DecidableEq, Repr

/-- The correlator's module-level mutable state. -/
structure Corr where
  futures : List (Nat × FutSt) := []
  pendingReqs : List (String × Nat) := []
  nextFid : Nat := 0
deriving DecidableEq, Repr

/-- Registration step of `get_human_in_loop`: create a fresh unresolved
future and store it under the request id. -/
def register_request (s : Corr) (rid : String) : Corr :=
  { futures := s.futures ++ [(s.nextFid, .pending)],
    pendingReqs := alSet s.pendingReqs rid s.nextFid,
    nextFid := s.nextFid + 1 }

/-- The `input_response` branch of `_handle_client`: returns the new state
and whether the "unknown request" warning was logged.  Total: this code path
never raises to the caller. -/
def handle_input_response (s : Corr) (rid : String) (v : String) : Corr × Bool :=
  match alGet s.pendingReqs rid with
  | none => (s, true)
  | some fid =>
    let futures' :=
      if alGet s.futures fid = some .pending
        then alSet s.futures fid (.value v)
        else s.futures
    ({ s with futures := futures', pendingReqs := alDel s.pendingReqs rid }, false)

/-- The timeout branch of `get_human_in_loop`: `asyncio.wait_for` cancels
the future if it is still pending, and the handler removes the registry
entry if present. -/
def timeout_fire (s : Corr) (rid : String) : Corr :=
  match alGet s.pendingReqs rid with
  | none => s
  | some fid =>
    let futures' :=
      if alGet s.futures fid = some .pending
        then alSet s.futures fid .cancelled
        else s.futures
    { s with futures := futures', pendingReqs := alDel s.pendingReqs rid }

/-- The pending-request sweep of `stop_websocket_server` (server running):
`set_exception(CancelledError)` on every registered not-done future, then
clear the registry. -/
def cancel_all (s : Corr) : Corr :=
  { s with
    futures := s.futures.map (fun p =>
      if p.2 = .pending ∧ s.pendingReqs.any (fun q => q.2 = p.1)
        then (p.1, .cancelled) else p),
    pendingReqs := [] }

/-- `browser_use.ActionResult` as used by `get_human_in_loop` (only the
`extracted_content` field is set). -/
structure ActionResult where
  extracted_content : String
deriving DecidableEq, Repr

/-- What the caller of `get_human_in_loop` observes. -/
inductive AskRes where
  | ok (r : ActionResult)
  | timeoutErr
deriving DecidableEq, Repr

/-- `get_human_in_loop(question, timeout)`, parameterised by the fresh
`request_id` (`uuid.uuid4()`) and by whether a matching `input_response`
arrives before the timeout (`arrival`).  The function registers the request,
broadcasts (no registry effect), and waits: a matching response runs the
`_handle_client` branch and wakes the waiter with
`ActionResult(extracted_content=value)`; otherwise `asyncio.wait_for` times
out, the timeout branch cleans up, and `asyncio.TimeoutError` is re-raised
to the caller. -/
def get_human_in_loop (s : Corr) (rid : String) (arrival : Option String) :
    Corr × AskRes :=
  let s1 := register_request s rid
  match arrival with
  | some v =>
    let s2 := (handle_input_response s1 rid v).1
    (s2, .ok { extracted_content := v })
  | none =>
    (timeout_fire s1 rid, .timeoutErr)

/-- The three events that can end a wait (the atomic event-loop turns that
touch a registered request after registration). -/
inductive CorrStep where
  | resolveS (rid : String) (v : String)
  | timeoutS (rid : String)
  | cancelS
deriving DecidableEq, Repr

/-- Apply one event-loop turn to the correlator state. -/
def corrApply (s : Corr) : CorrStep → Corr
  | .resolveS rid v => (handle_input_response s rid v).1
  | .timeoutS rid => timeout_fire s rid
  | .cancelS => cancel_all s

/-- Apply a sequence of event-loop turns. -/
def corrRun (s : Corr) (steps : List CorrStep) : Corr :=
  steps.foldl corrApply s

/-!
## Workflow engine (`Agents/main_agent.py`, `AutoAgent`)

`_build_workflow` registers the nodes `"thinker"`, `"researcher"`,
`"executor"` and `"human_input"`, conditional edges driven by
`Router.get_routing_function("thinker")` / `("executor")`, and a static edge
`human_input → executor`.

`executor_node` (lines 579–678): after the browser run, the
instruction-generation collaborator returns an `ExeActionStruct`; if
`interruption_context.interrup` is set the node stores the question and
resumption hint, sets `waiting`, and writes

* `state.routes["executor"] = ["human_input"]`, but
* `state.route_config["executor"] = RouteConfig(from_node="executor",
  conditional_nodes=["humman_input"])` — note the misspelling
  `"humman_input"` in the source at line 658;

otherwise it stores the final response and routes to `END` (langgraph's
`"__end__"`). In both branches `state.step` is incremented.  The collaborator
outputs (`instructions`, `next_action`) are parameters of the embedding.

`human_node` (lines 567–577) waits and then merges
`state.input["username"] = "amanragu200@gmail.com"` into the state; the graph
then follows the static edge back to `"executor"`.
-/

/-- langgraph's `END` sentinel. -/
def END_NODE : String := "__end__"

/-- `main_agent.InterruptionContext`. -/
structure InterruptionContext where
  interrup : Bool
  next_step : Option String := none
  question : Option String := none
deriving DecidableEq, Repr

/-- `main_agent.ExeActionStruct`. -/
structure ExeActionStruct where
  interruption_context : InterruptionContext
  final_response : Option String := none
deriving DecidableEq, Repr

/-- The state update performed by `AutoAgent.executor_node`, given the
instruction that was executed and the collaborator's `ExeActionStruct`. -/
def executor_node (state : AutoAgentState) (instructions : String)
    (next_action : ExeActionStruct) : AutoAgentState :=
  if next_action.interruption_context.interrup then
    { state with
      process_context := some (match state.process_context with
        | none =>
          { process_history := [instructions],
            next_step := next_action.interruption_context.next_step }
        | some pc =>
          { process_history := pc.process_history ++ [instructions],
            next_step := next_action.interruption_context.next_step }),
      question := next_action.interruption_context.question,
      waiting := true,
      routes := alSet state.routes "executor" ["human_input"],
      route_config := alSet state.route_config "executor"
        { from_node := "executor", conditional_nodes := ["humman_input"] },
      step := state.step + 1 }
  else
    { state with
      results := next_action.final_response,
      routes := alSet state.routes "executor" [END_NODE],
      route_config := alSet state.route_config "executor"
        { from_node := "executor", conditional_nodes := [END_NODE] },
      step := state.step + 1 }

/-- The state update performed by `AutoAgent.human_node` (after the wait it
unconditionally merges the collected user value into `state.input`). -/
def human_node (state : AutoAgentState) : AutoAgentState :=
  { state with input := alSet state.input "username" "amanragu200@gmail.com" }

/-- The node name registered for the human-input stage in
`_build_workflow` (line 133), target of the static edge back to
`"executor"`. -/
def HUMAN_NODE_NAME : String := "human_input"

/-!
## Pool lemmas
-/

theorem alGet_some_mem {κ α : Type} [DecidableEq κ]
    (m : List (κ × α)) (k : κ) (v : α) (h : alGet m k = some v) : (k, v) ∈ m := by
  induction m with
  | nil => simp [alGet] at h
  | cons hd tl ih =>
    by_cases hk : hd.1 = k
    · obtain ⟨k0, v0⟩ := hd
      simp only at hk
      subst hk
      simp only [alGet, if_pos rfl] at h
      cases h
      exact List.mem_cons_self _ _
    · simp only [alGet, hk, if_false] at h
      exact List.mem_cons_of_mem _ (ih h)

/-- Well-formedness the handler maintains by construction: `_browsers` is a
dict (unique keys) whose keys were all produced by the fresh-id counter. -/
def PoolWF (s : Pool) : Prop :=
  (s.browsers.map Prod.fst).Nodup ∧ ∀ p ∈ s.browsers, p.1 < s.nextId

/-- Outcome analysis of `get_available_browser` on success: either an
existing browser with spare capacity was returned and the pool is untouched,
or the pool was below the browser limit and a fresh empty browser was
appended. -/
theorem get_available_browser_cases (s : Pool) (bid : Nat) (s1 : Pool)
    (h : get_available_browser s = .ok (bid, s1)) :
    (∃ bd, s1 = s ∧ (bid, bd) ∈ s.browsers ∧
       bd.contexts.length < s.maxContexts) ∨
    (s.browsers.length < s.maxBrowsers ∧ bid = s.nextId ∧
       s1 = { s with browsers := s.browsers ++ [(s.nextId, {})],
                     nextId := s.nextId + 1 }) := by
  unfold get_available_browser at h
  cases hf : s.browsers.find? (fun p => p.2.contexts.length < s.maxContexts) with
  | some p =>
    rw [hf] at h
    cases h
    left
    refine ⟨p.2, rfl, ?_, ?_⟩
    · exact List.mem_of_find?_eq_some hf
    · have := List.find?_some hf
      simpa using this
  | none =>
    rw [hf] at h
    unfold create_browser at h
    by_cases hb : s.maxBrowsers ≤ s.browsers.length
    · simp [hb] at h
    · simp only [hb, if_false] at h
      cases h
      right
      exact ⟨by omega, rfl, rfl⟩

/-- Shape of a successful `create_context`: some browser id `bid` was
selected by `get_available_browser`, and the new pool registers a fresh
context object in that browser's dict and in the reverse index.  The limits
are unchanged and the fresh-id counter strictly grows past `s1`'s. -/
theorem create_context_shape (s : Pool) (o : Option String) (cid : String)
    (s3 : Pool) (h : create_context s o = .ok (cid, s3)) :
    ∃ bid s1 k,
      get_available_browser s = .ok (bid, s1) ∧
      s3.browsers = alModify s1.browsers bid
        (fun bd => { contexts := alSet bd.contexts cid { stamp := k } }) ∧
      s3.contextToBrowser = alSet s1.contextToBrowser cid bid ∧
      s3.maxBrowsers = s.maxBrowsers ∧ s3.maxContexts = s.maxContexts ∧
      s1.nextId < s3.nextId ∧ s1.maxBrowsers = s.maxBrowsers ∧
      s1.maxContexts = s.maxContexts ∧
      (o = none ∨ o = some cid) := by
  unfold create_context at h
  cases hg : get_available_browser s with
  | error e => rw [hg] at h; cases h
  | ok r =>
    obtain ⟨bid, s1⟩ := r
    rw [hg] at h
    have hmb : s1.maxBrowsers = s.maxBrowsers := by
      rcases get_available_browser_cases s bid s1 hg with ⟨bd, rfl, _, _⟩ | ⟨_, _, rfl⟩
      · rfl
      · rfl
    have hmc : s1.maxContexts = s.maxContexts := by
      rcases get_available_browser_cases s bid s1 hg with ⟨bd, rfl, _, _⟩ | ⟨_, _, rfl⟩
      · rfl
      · rfl
    cases o with
    | none =>
      simp only at h
      cases h
      exact ⟨bid, s1, s1.nextId + 1, rfl, rfl, rfl, hmb, hmc,
        by show s1.nextId < s1.nextId + 1 + 1; omega, hmb, hmc, Or.inl rfl⟩
    | some c =>
      simp only at h
      cases h
      exact ⟨bid, s1, s1.nextId, rfl, rfl, rfl, hmb, hmc,
        by show s1.nextId < s1.nextId + 1; omega, hmb, hmc, Or.inr rfl⟩

/-- One `allocateContext` call (`allocStep`) preserves the capacity
invariant, the pool well-formedness, and the configured limits — provided
each browser may hold at least one context (`1 ≤ maxContexts`; with
`maxContexts = 0` the call puts one context into a freshly created browser,
see the counterexample for the corresponding claim). -/
theorem allocStep_good (s : Pool) (o : Option String)
    (hmc : 1 ≤ s.maxContexts) (hwf : PoolWF s) (hinv : PoolInv s) :
    PoolInv (allocStep s o) ∧ PoolWF (allocStep s o) ∧
    (allocStep s o).maxContexts = s.maxContexts ∧
    (allocStep s o).maxBrowsers = s.maxBrowsers := by
  unfold allocStep
  cases hc : create_context s o with
  | error e => exact ⟨hinv, hwf, rfl, rfl⟩
  | ok r =>
    obtain ⟨cid, s3⟩ := r
    simp only
    obtain ⟨bid, s1, k, hg, hbr, hidx, hmb3, hmc3, hnid, hmb1, hmc1, _⟩ :=
      create_context_shape s o cid s3 hc
    refine ⟨?_, ?_, hmc3, hmb3⟩
    · -- PoolInv s3
      rcases get_available_browser_cases s bid s1 hg with
        ⟨bd, hs1, hmem, hcap⟩ | ⟨hlen, hbid, hs1⟩
      · -- reuse of an existing browser with spare capacity
        rw [hs1] at hbr hnid
        have hget : alGet s.browsers bid = some bd :=
          alGet_eq_of_mem_nodup _ _ _ hwf.1 hmem
        obtain ⟨m1, m2, hsplit, hm1, hmod⟩ := alModify_split s.browsers bid
          (fun bd => { contexts := alSet bd.contexts cid { stamp := k } }) bd hget
        constructor
        · have hl : s3.browsers.length = s.browsers.length := by
            rw [hbr]; exact alModify_length _ _ _
          rw [hl, hmb3]
          exact hinv.1
        · intro p hp
          rw [hbr, hmod] at hp
          rw [hmc3]
          rcases List.mem_append.mp hp with hp1 | hp2
          · exact hinv.2 p (by rw [hsplit]; exact List.mem_append_left _ hp1)
          · rcases List.mem_cons.mp hp2 with hpe | hp3
            · subst hpe
              simp only
              calc (alSet bd.contexts cid { stamp := k }).length
                  ≤ bd.contexts.length + 1 := alSet_length_le _ _ _
                _ ≤ s.maxContexts := hcap
            · exact hinv.2 p (by
                rw [hsplit]
                exact List.mem_append_right _ (List.mem_cons_of_mem _ hp3))
      · -- a fresh browser was created
        have hfresh : alGet s.browsers s.nextId = none := by
          cases hfg : alGet s.browsers s.nextId with
          | none => rfl
          | some v =>
            have := hwf.2 _ (alGet_some_mem _ _ _ hfg)
            omega
        have hget : alGet s1.browsers bid = some {} := by
          rw [hs1, hbid]
          simp only
          rw [alGet_append, hfresh]
          simp [alGet]
        obtain ⟨m1, m2, hsplit, hm1, hmod⟩ := alModify_split s1.browsers bid
          (fun bd => { contexts := alSet bd.contexts cid { stamp := k } }) {} hget
        constructor
        · have hl3 : s3.browsers.length = s1.browsers.length := by
            rw [hbr]; exact alModify_length _ _ _
          have hl1 : s1.browsers.length = s.browsers.length + 1 := by
            rw [hs1]; simp
          rw [hl3, hl1, hmb3]
          omega
        · intro p hp
          rw [hbr, hmod] at hp
          rw [hmc3]
          have hsub : ∀ q, q ∈ m1 ∨ q ∈ m2 →
              q.2.contexts.length ≤ s.maxContexts := by
            intro q hq
            have hq1 : q ∈ s1.browsers := by
              rw [hsplit]
              rcases hq with hq | hq
              · exact List.mem_append_left _ hq
              · exact List.mem_append_right _ (List.mem_cons_of_mem _ hq)
            rw [hs1] at hq1
            simp only [List.mem_append, List.mem_cons] at hq1
            rcases hq1 with hq1 | hq1
            · exact hinv.2 q hq1
            · rcases hq1 with hq1 | hq1
              · subst hq1; simp
              · simp at hq1
          rcases List.mem_append.mp hp with hp1 | hp2
          · exact hsub p (Or.inl hp1)
          · rcases List.mem_cons.mp hp2 with hpe | hp3
            · subst hpe
              simpa [alSet] using hmc
            · exact hsub p (Or.inr hp3)
    · -- PoolWF s3
      have hkeys : s3.browsers.map Prod.fst = s1.browsers.map Prod.fst := by
        rw [hbr]; exact alModify_map_fst _ _ _
      rcases get_available_browser_cases s bid s1 hg with
        ⟨bd, hs1, hmem, hcap⟩ | ⟨hlen, hbid, hs1⟩
      · rw [hs1] at hkeys hnid
        constructor
        · rw [hkeys]; exact hwf.1
        · intro p hp
          have hpk : p.1 ∈ s.browsers.map Prod.fst := by
            rw [← hkeys]
            exact List.mem_map.mpr ⟨p, hp, rfl⟩
          obtain ⟨q, hq, hqk⟩ := List.mem_map.mp hpk
          have := hwf.2 q hq
          omega
      · constructor
        · rw [hkeys, hs1]
          simp only [List.map_append, List.map_cons, List.map_nil]
          rw [List.nodup_append]
          refine ⟨hwf.1, List.nodup_singleton _, ?_⟩
          intro a ha hb
          simp only [List.mem_singleton] at hb
          subst hb
          obtain ⟨q, hq, hqk⟩ := List.mem_map.mp ha
          have := hwf.2 q hq
          omega
        · intro p hp
          have hpk : p.1 ∈ s1.browsers.map Prod.fst := by
            rw [← hkeys]
            exact List.mem_map.mpr ⟨p, hp, rfl⟩
          have hs1n : s1.nextId = s.nextId + 1 := by rw [hs1]
          rw [hs1] at hpk
          simp only [List.map_append, List.map_cons, List.map_nil,
            List.mem_append, List.mem_singleton] at hpk
          rcases hpk with hpk | hpk
          · obtain ⟨q, hq, hqk⟩ := List.mem_map.mp hpk
            have := hwf.2 q hq
            omega
          · omega

/-- Invariant and well-formedness hold after any sequence of
`allocateContext` calls (given `1 ≤ maxContexts`). -/
theorem allocRun_good (calls : List (Option String)) (s : Pool)
    (hmc : 1 ≤ s.maxContexts) (hwf : PoolWF s) (hinv : PoolInv s) :
    PoolInv (allocRun s calls) ∧ PoolWF (allocRun s calls) ∧
    (allocRun s calls).maxContexts = s.maxContexts ∧
    (allocRun s calls).maxBrowsers = s.maxBrowsers := by
  induction calls generalizing s with
  | nil => exact ⟨hinv, hwf, rfl, rfl⟩
  | cons o rest ih =>
    obtain ⟨hinv1, hwf1, hmc1, hmb1⟩ := allocStep_good s o hmc hwf hinv
    have hstep : allocRun s (o :: rest) = allocRun (allocStep s o) rest := rfl
    rw [hstep]
    obtain ⟨a, b, c, d⟩ := ih (allocStep s o) (by omega) hwf1 hinv1
    exact ⟨a, b, by omega, by omega⟩

/-- When the pool is full (`maxSessions` browsers, each at `maxContexts`),
`create_context` fails with the wrapped capacity error. -/
theorem create_context_exhausted (s : Pool) (o : Option String)
    (hfull : PoolFull s) :
    create_context s o = .error .resourcePoolExhausted := by
  unfold create_context get_available_browser create_browser
  have hfind : s.browsers.find?
      (fun p => p.2.contexts.length < s.maxContexts) = none := by
    rw [List.find?_eq_none]
    intro p hp
    have := hfull.2 p hp
    simp only [decide_eq_true_eq]
    omega
  rw [hfind]
  have hlen : s.maxBrowsers ≤ s.browsers.length := le_of_eq hfull.1.symm
  simp [hlen]

/-!
## Claims
-/

/-- C1 (amended with `1 ≤ maxContextsPerSession`): for every sequence of
`allocateContext` calls on a freshly constructed pool, the number of
browsers never exceeds `maxBrowsers` and every browser holds at most
`maxContexts` contexts; and whenever the pool holds `maxBrowsers` browsers
all at full context capacity, the next `create_context` call fails with the
capacity error (the `RuntimeError` the spec calls `ResourcePoolExhausted`).
The amendment is forced: with `maxContexts = 0` the context bound is
violated (see the counterexample). -/
theorem C1_pool_capacity (mB mC : Nat) (hmC : 1 ≤ mC)
    (calls : List (Option String)) :
    PoolInv (allocRun (Pool.init mB mC) calls) ∧
    (∀ o : Option String, PoolFull (allocRun (Pool.init mB mC) calls) →
      create_context (allocRun (Pool.init mB mC) calls) o =
        .error .resourcePoolExhausted) := by
  have hinit_inv : PoolInv (Pool.init mB mC) := by
    constructor
    · simp [Pool.init]
    · intro p hp
      simp [Pool.init] at hp
  have hinit_wf : PoolWF (Pool.init mB mC) := by
    constructor
    · simp [Pool.init]
    · intro p hp
      simp [Pool.init] at hp
  obtain ⟨hinv, _, _, _⟩ :=
    allocRun_good calls (Pool.init mB mC) hmC hinit_wf hinit_inv
  exact ⟨hinv, fun o hfull => create_context_exhausted _ o hfull⟩

/-- C1 counterexample to the claim as stated: with limits
`maxSessions = 1, maxContextsPerSession = 0`, a single `allocateContext`
call creates a browser holding one context, violating
`len(contexts) <= maxContextsPerSession` (the new-browser path of
`create_context` inserts the context without re-checking capacity). -/
theorem C1_counterexample :
    ¬ PoolInv (allocRun (Pool.init 1 0) [none]) ∧
    (allocRun (Pool.init 1 0) [none]).browsers.map
      (fun p => p.2.contexts.length) = [1] ∧
    (Pool.init 1 0).maxContexts = 0 :=
  ⟨by decide, by decide, rfl⟩

/-- C1 witness: the spec's own scenario — `maxSessions = 1`,
`maxContextsPerSession = 2`, two allocations succeed and keep the
invariant, and the third call fails with the capacity error. -/
theorem C1_witness :
    PoolInv (allocRun (Pool.init 1 2) [none, none]) ∧
    create_context (allocRun (Pool.init 1 2) [none, none]) none =
      .error .resourcePoolExhausted :=
  ⟨(C1_pool_capacity 1 2 (by decide) [none, none]).1,
   (C1_pool_capacity 1 2 (by decide) [none, none]).2 none (by decide)⟩

/-- The spec's routing example state: `routeConfig["A"]` declares
conditional stages `["B","C"]` and the stage declared `routes["A"] = ["C"]`. -/
def stateC3 : AutoAgentState :=
  { user_task := "t", context_id := "c",
    route_config := [("A", { from_node := "A", conditional_nodes := ["B", "C"] })],
    routes := [("A", ["C"])] }

/-- C3: with fan-out unset, `routing_function` returns the elements of the
config's `conditional_nodes` that the stage itself selected in
`state.routes[from_node]`, in `conditional_nodes` order; in particular, the
spec's example `routeConfig["A"] = {conditional: ["B","C"]}`,
`state.routes["A"] = ["C"]` yields exactly `["C"]`. -/
theorem C3_conditional_routing :
    (∀ (state : AutoAgentState) (from_node : String) (config : RouteConfig),
      alGet state.route_config from_node = some config →
      config.send = false →
      routing_function from_node state =
        .ok (.nodes (config.conditional_nodes.filter
          (fun n => ((alGet state.routes from_node).getD []).contains n)))) ∧
    routing_function "A" stateC3 = .ok (.nodes ["C"]) := by
  constructor
  · intro state from_node config hc hsend
    unfold routing_function
    rw [hc]
    simp [hsend]
  · rfl

/-- C3 witness: the general clause applied to the spec's example state. -/
theorem C3_witness : routing_function "A" stateC3 = .ok (.nodes ["C"]) := by
  have h := C3_conditional_routing.1 stateC3 "A"
    { from_node := "A", conditional_nodes := ["B", "C"] } rfl rfl
  exact h.trans rfl

/-- A state whose `route_config` has no entry at all. -/
def stateC8 : AutoAgentState := { user_task := "t", context_id := "c" }

/-- C8 counterexample: when `route_config` has no entry for the stage, the
lookup `state.route_config[from_node]` sits *before* the `try:` block of
`routing_function`, so the call fails with a raw Python `KeyError` — not
with `RouteNotFoundError` as the claim states (that class is defined in the
module but never raised here; the only code that would raise it is commented
out in `get_routing_function`). -/
theorem C8_counterexample :
    routing_function "A" stateC8 = .error (.pyKeyError "A") := rfl

/-- C8 (amended): if `state.routeConfig` has no entry for `fromStage`,
`resolveNext` fails with an uncaught `KeyError` from the raw dict lookup
(not with `RouteNotFound`). -/
theorem C8_missing_config (state : AutoAgentState) (from_node : String)
    (h : alGet state.route_config from_node = none) :
    routing_function from_node state = .error (.pyKeyError from_node) := by
  unfold routing_function
  rw [h]

/-- C8 witness: the amended theorem at a concrete state with an empty
`route_config`. -/
theorem C8_witness : routing_function "B" stateC8 = .error (.pyKeyError "B") :=
  C8_missing_config stateC8 "B" rfl

/-- A state where stage "A" declares non-empty conditional stages but no
selection at all (no `routes` entry). -/
def stateC9 : AutoAgentState :=
  { user_task := "t", context_id := "c",
    route_config := [("A", { from_node := "A", conditional_nodes := ["B"] })] }

/-- C9 counterexample: `conditional_nodes = ["B"]` is non-empty and the
stage declared no selection (`routes` has no entry for "A"), yet
`routing_function` returns the empty list as a normal `.ok` result instead
of failing with `RouteConfigurationError`: the code has no emptiness check
at all. -/
theorem C9_counterexample :
    routing_function "A" stateC9 = .ok (.nodes []) ∧
    alGet stateC9.route_config "A" =
      some { from_node := "A", conditional_nodes := ["B"] } ∧
    alGet stateC9.routes "A" = none :=
  ⟨rfl, rfl, rfl⟩

/-- C9 (amended): when `conditionalStages` is non-empty and the stage
declared no selection, `resolveNext` returns the empty list as a normal
result — indistinguishable from the terminal condition;
`RouteConfigurationError` is never raised by the routing function. -/
theorem C9_empty_selection (state : AutoAgentState) (from_node : String)
    (config : RouteConfig)
    (hc : alGet state.route_config from_node = some config)
    (hsend : config.send = false)
    (hne : config.conditional_nodes ≠ [])
    (hsel : alGet state.routes from_node = none) :
    routing_function from_node state = .ok (.nodes []) := by
  unfold routing_function
  rw [hc]
  simp [hsend, hsel]

/-- C9 witness: the amended theorem at the concrete defect state. -/
theorem C9_witness : routing_function "A" stateC9 = .ok (.nodes []) :=
  C9_empty_selection stateC9 "A"
    { from_node := "A", conditional_nodes := ["B"] } rfl rfl (by simp) rfl

/-- C10: with fan-out (`send`) set, `routing_function` returns exactly one
`Send` dispatch per element of `state.send_list[from_node]`, in order, each
targeted at `config.send_to` and each carrying the corresponding sibling
sub-state; and replacing the packet of one sibling leaves every other
sibling's packet unchanged (the dispatch list carries one value per sibling
and the routing call reads, but never writes, the state — in particular
`state.routes` is untouched). -/
theorem C10_fanout (state : AutoAgentState) (from_node : String)
    (config : RouteConfig)
    (hc : alGet state.route_config from_node = some config)
    (hsend : config.send = true) :
    routing_function from_node state =
      .ok (.sends (((alGet state.send_list from_node).getD []).map
        (fun ist => { node := config.send_to, internal_state := ist }))) ∧
    (((alGet state.send_list from_node).getD []).map
        (fun ist => ({ node := config.send_to, internal_state := ist } :
          SendPacket))).length =
      ((alGet state.send_list from_node).getD []).length ∧
    (∀ i : Nat,
      (((alGet state.send_list from_node).getD []).map
        (fun ist => ({ node := config.send_to, internal_state := ist } :
          SendPacket)))[i]? =
      (((alGet state.send_list from_node).getD [])[i]?).map
        (fun ist => { node := config.send_to, internal_state := ist })) ∧
    (∀ (i j : Nat) (x : SendPacket), i ≠ j →
      ((((alGet state.send_list from_node).getD []).map
        (fun ist => ({ node := config.send_to, internal_state := ist } :
          SendPacket))).set i x)[j]? =
      (((alGet state.send_list from_node).getD []).map
        (fun ist => ({ node := config.send_to, internal_state := ist } :
          SendPacket)))[j]?) := by
  refine ⟨?_, ?_, ?_, ?_⟩
  · unfold routing_function
    rw [hc]
    simp [hsend]
  · exact List.length_map _ _
  · intro i
    exact List.getElem?_map _ _ i
  · intro i j x hij
    exact List.getElem?_set_ne hij

/-- A two-sibling fan-out state for the C10 witness. -/
def stateC10 : AutoAgentState :=
  { user_task := "t", context_id := "c",
    route_config := [("A", { from_node := "A", send := true,
                             send_to := some "worker" })],
    send_list := [("A", [{ data := [("job", "1")] },
                         { data := [("job", "2")] }])] }

/-- C10 witness: the fan-out theorem at a concrete two-sibling state. -/
theorem C10_witness :
    routing_function "A" stateC10 =
      .ok (.sends [{ node := some "worker", internal_state := { data := [("job", "1")] } },
                   { node := some "worker", internal_state := { data := [("job", "2")] } }]) ∧
    (([{ node := some "worker", internal_state := { data := [("job", "1")] } },
       { node := some "worker", internal_state := { data := [("job", "2")] } }] :
        List SendPacket).set 0
          { node := some "worker", internal_state := { data := [("job", "x")] } })[1]? =
      some { node := some "worker", internal_state := { data := [("job", "2")] } } := by
  constructor
  · have h := (C10_fanout stateC10 "A"
      { from_node := "A", send := true, send_to := some "worker" } rfl rfl).1
    exact h.trans rfl
  · have h := (C10_fanout stateC10 "A"
      { from_node := "A", send := true, send_to := some "worker" } rfl rfl).2.2.2
      0 1 { node := some "worker", internal_state := { data := [("job", "x")] } }
      (by decide)
    exact h.trans rfl

/-- A workflow state about to run the executor stage. -/
def stateC4 : AutoAgentState :=
  { user_task := "book a flight", context_id := "ctx-1",
    tasks := ["book a flight"] }

/-- The collaborator output reporting an interruption request (it needs
clarification from the human). -/
def actionC4 : ExeActionStruct :=
  { interruption_context :=
      { interrup := true,
        next_step := some "continue checkout",
        question := some "What is your email?" } }

/-- C4: evaluation of the code at the failing input.  When the collaborator
reports an interruption, `executor_node` stores the question, sets
`waiting`, and writes `routes["executor"] = ["human_input"]` — but its
`route_config` entry misspells the target as `"humman_input"`
(`main_agent.py` line 658), while the graph node registered in
`_build_workflow` is `"human_input"`.  The routing step after the executor
therefore intersects `["humman_input"]` with `["human_input"]` and returns
`[]`: the workflow never reaches the human-input stage, contradicting both
the spec and the code's own `routes` assignment.  (The `human_node` →
`executor` half of the claim is fine: `human_node` merges the collected
value into `state.input` and the graph has a static `human_input →
executor` edge.) -/
theorem C4_interrupt_routing_bug :
    alGet (executor_node stateC4 "fill the form" actionC4).routes "executor" =
      some ["human_input"] ∧
    (executor_node stateC4 "fill the form" actionC4).question =
      some "What is your email?" ∧
    (executor_node stateC4 "fill the form" actionC4).waiting = true ∧
    (executor_node stateC4 "fill the form" actionC4).process_context =
      some { process_history := ["fill the form"],
             next_step := some "continue checkout" } ∧
    alGet (executor_node stateC4 "fill the form" actionC4).route_config
        "executor" =
      some { from_node := "executor", conditional_nodes := ["humman_input"] } ∧
    routing_function "executor" (executor_node stateC4 "fill the form" actionC4) =
      .ok (.nodes []) ∧
    RouteResult.nodes [] ≠ RouteResult.nodes [HUMAN_NODE_NAME] ∧
    alGet (human_node (executor_node stateC4 "fill the form" actionC4)).input
        "username" = some "amanragu200@gmail.com" :=
  ⟨rfl, rfl, rfl, rfl, rfl, rfl, by decide, rfl⟩

/-- A pool holding one context whose external handle close fails. -/
def poolC5 : Pool :=
  { maxBrowsers := 1, maxContexts := 1,
    browsers := [(0, { contexts := [("c1", { stamp := 1, closeOk := false })] })],
    contextToBrowser := [("c1", 0)], nextId := 2 }

/-- The same pool with a context whose handle close succeeds. -/
def poolC5ok : Pool :=
  { maxBrowsers := 1, maxContexts := 1,
    browsers := [(0, { contexts := [("c1", { stamp := 1 })] })],
    contextToBrowser := [("c1", 0)], nextId := 2 }

/-- C5 counterexample: `close_context` calls `await context.close()` FIRST
(the success trace starts with the handle release, so removal does not
happen "before releasing the external handle"), and when the handle release
fails the `except` branch returns `False` without any cleanup: the context
is still present in `_context_to_browser` and in its browser's map — the
index entry is leaked, contradicting "the Context is still marked closed in
the index". -/
theorem C5_counterexample :
    (close_context poolC5ok "c1").2.1 =
      [CloseEv.closeHandle "c1" true, CloseEv.removeFromSession "c1",
       CloseEv.removeFromIndex "c1"] ∧
    (close_context poolC5 "c1").2.1 = [CloseEv.closeHandle "c1" false] ∧
    alGet (close_context poolC5 "c1").1.contextToBrowser "c1" = some 0 ∧
    (close_context poolC5 "c1").1 = poolC5 ∧
    (close_context poolC5 "c1").2.2 = false :=
  ⟨rfl, rfl, rfl, rfl, rfl⟩

/-- C5 (amended): `close_context` releases the external handle first and
only then removes the context from its browser's map and from the
`contextId → browserId` index; if the handle release raises, the exception
is caught and logged, `False` is returned, and the context remains in both
maps (the index entry is leaked until a later successful close). -/
theorem C5_close_context (s : Pool) (cid : String) (bid : Nat)
    (bd : BrowserData) (ctx : Ctx)
    (h1 : alGet s.contextToBrowser cid = some bid)
    (h2 : alGet s.browsers bid = some bd)
    (h3 : alGet bd.contexts cid = some ctx) :
    (ctx.closeOk = true →
      close_context s cid =
        ({ s with
           browsers := alModify s.browsers bid
             (fun b => { contexts := alDel b.contexts cid }),
           contextToBrowser := alDel s.contextToBrowser cid },
         [CloseEv.closeHandle cid true, CloseEv.removeFromSession cid,
          CloseEv.removeFromIndex cid], true) ∧
      alGet (close_context s cid).1.contextToBrowser cid = none) ∧
    (ctx.closeOk = false →
      close_context s cid = (s, [CloseEv.closeHandle cid false], false)) := by
  have hcc : close_context s cid =
      if ctx.closeOk then
        ({ s with
           browsers := alModify s.browsers bid
             (fun b => { contexts := alDel b.contexts cid }),
           contextToBrowser := alDel s.contextToBrowser cid },
         [CloseEv.closeHandle cid true, CloseEv.removeFromSession cid,
          CloseEv.removeFromIndex cid], true)
      else (s, [CloseEv.closeHandle cid false], false) := by
    unfold close_context
    simp only [h1, h2, h3]
  constructor
  · intro hok
    refine ⟨?_, ?_⟩
    · rw [hcc, hok]
      simp
    · rw [hcc, hok]
      simp [alGet_alDel_self]
  · intro hko
    rw [hcc, hko]
    simp

/-- C5 witness: the amended theorem at the two concrete pools. -/
theorem C5_witness :
    (close_context poolC5ok "c1").2.1 =
      [CloseEv.closeHandle "c1" true, CloseEv.removeFromSession "c1",
       CloseEv.removeFromIndex "c1"] ∧
    alGet (close_context poolC5ok "c1").1.contextToBrowser "c1" = none ∧
    close_context poolC5 "c1" = (poolC5, [CloseEv.closeHandle "c1" false], false) := by
  have h1 := (C5_close_context poolC5ok "c1" 0
    { contexts := [("c1", { stamp := 1 })] } { stamp := 1 } rfl rfl rfl).1 rfl
  have h2 := (C5_close_context poolC5 "c1" 0
    { contexts := [("c1", { stamp := 1, closeOk := false })] }
    { stamp := 1, closeOk := false } rfl rfl rfl).2 rfl
  refine ⟨?_, h1.2, h2⟩
  rw [h1.1]

theorem alGet_isSome_of_mem {κ α : Type} [DecidableEq κ]
    (m : List (κ × α)) (k : κ) (v : α) (h : (k, v) ∈ m) :
    ∃ w, alGet m k = some w := by
  induction m with
  | nil => simp at h
  | cons hd tl ih =>
    by_cases hk : hd.1 = k
    · exact ⟨hd.2, by simp [alGet, hk]⟩
    · rcases List.mem_cons.mp h with he | ht
      · exact absurd (by rw [← he]) hk
      · simpa [alGet, hk] using ih ht

/-- C6: `get_context` is get-or-create and idempotent.  If `cid` is unknown
to the pool and `get_context s cid` succeeds, then the call allocated
exactly one new context (total context count grows by one), the returned
context is present (not `None`), and calling `get_context` again on the
resulting pool returns the very same context without changing the pool. -/
theorem C6_get_or_create (s : Pool) (cid : String) (r : Option Ctx) (s1 : Pool)
    (hunk : alGet s.contextToBrowser cid = none)
    (hnotin : ∀ p ∈ s.browsers, alGet p.2.contexts cid = none)
    (hcall : get_context s cid = .ok (r, s1)) :
    get_context s1 cid = .ok (r, s1) ∧ r.isSome = true ∧
    countContexts s1 = countContexts s + 1 := by
  unfold get_context at hcall
  rw [hunk] at hcall
  cases hcr : create_context s (some cid) with
  | error e =>
    rw [hcr] at hcall
    simp [Except.map] at hcall
  | ok rr =>
    obtain ⟨cidr, s3⟩ := rr
    rw [hcr] at hcall
    simp only [Except.map] at hcall
    obtain ⟨bid, sA, k, hg, hbr, hidx, _, _, _, _, _, hdisj⟩ :=
      create_context_shape s (some cid) cidr s3 hcr
    have hcidr : cid = cidr := by
      rcases hdisj with h | h
      · cases h
      · exact Option.some.inj h
    subst hcidr
    have key : ∃ bd0, alGet sA.browsers bid = some bd0 ∧
        alGet bd0.contexts cid = none ∧
        (sA.browsers.map (fun p => p.2.contexts.length)).sum = countContexts s := by
      rcases get_available_browser_cases s bid sA hg with
        ⟨bd, hsA, hmem, _⟩ | ⟨_, hbid, hsA⟩
      · obtain ⟨w, hw⟩ := alGet_isSome_of_mem s.browsers bid bd hmem
        exact ⟨w, by rw [hsA]; exact hw,
          hnotin _ (alGet_some_mem _ _ _ hw), by rw [hsA]; rfl⟩
      · cases hold : alGet s.browsers s.nextId with
        | some v =>
          refine ⟨v, ?_, hnotin _ (alGet_some_mem _ _ _ hold), ?_⟩
          · rw [hsA, hbid]
            show alGet (s.browsers ++ [(s.nextId, ({ contexts := [] } : BrowserData))])
              s.nextId = some v
            rw [alGet_append, hold]
          · rw [hsA]
            show ((s.browsers ++ [(s.nextId, ({ contexts := [] } : BrowserData))]).map
              (fun (p : Nat × BrowserData) => p.2.contexts.length)).sum =
              countContexts s
            unfold countContexts
            simp
        | none =>
          refine ⟨({ contexts := [] } : BrowserData), ?_, rfl, ?_⟩
          · rw [hsA, hbid]
            show alGet (s.browsers ++ [(s.nextId, ({ contexts := [] } : BrowserData))])
              s.nextId = some { contexts := [] }
            rw [alGet_append, hold]
            simp [alGet]
          · rw [hsA]
            show ((s.browsers ++ [(s.nextId, ({ contexts := [] } : BrowserData))]).map
              (fun (p : Nat × BrowserData) => p.2.contexts.length)).sum =
              countContexts s
            unfold countContexts
            simp
    obtain ⟨bd0, hbd0, hbd0none, hAsum⟩ := key
    have hidx2 : alGet s3.contextToBrowser cid = some bid := by
      rw [hidx]
      exact alGet_alSet_self _ _ _
    have hbrow : alGet s3.browsers bid =
        some { contexts := alSet bd0.contexts cid { stamp := k } } := by
      rw [hbr, alGet_alModify_self, hbd0]
      rfl
    simp only [hidx2, hbrow] at hcall
    rw [alGet_alSet_self] at hcall
    have hpair : r = some { stamp := k } ∧ s1 = s3 := by
      have h' := hcall
      simp only [Except.ok.injEq, Prod.mk.injEq] at h'
      exact ⟨h'.1.symm, h'.2.symm⟩
    obtain ⟨hrv, hs1⟩ := hpair
    subst hs1
    refine ⟨?_, by rw [hrv]; rfl, ?_⟩
    · unfold get_context
      simp only [hidx2, hbrow]
      rw [alGet_alSet_self, hrv]
    · obtain ⟨m1, m2, hsplitA, _, hmodA⟩ :=
        alModify_split sA.browsers bid
          (fun bd => { contexts := alSet bd.contexts cid { stamp := k } }) bd0 hbd0
      have hlen_new : (alSet bd0.contexts cid { stamp := k }).length
          = bd0.contexts.length + 1 := alSet_length_of_not_mem _ _ _ hbd0none
      have h3 : countContexts s1 =
          (m1.map (fun p => p.2.contexts.length)).sum +
          (bd0.contexts.length + 1) +
          (m2.map (fun p => p.2.contexts.length)).sum := by
        unfold countContexts
        rw [hbr, hmodA]
        simp only [List.map_append, List.map_cons, List.sum_append,
          List.sum_cons]
        simp only [hlen_new]
        omega
      have hA : (sA.browsers.map (fun p => p.2.contexts.length)).sum =
          (m1.map (fun p => p.2.contexts.length)).sum +
          bd0.contexts.length +
          (m2.map (fun p => p.2.contexts.length)).sum := by
        rw [hsplitA]
        simp only [List.map_append, List.map_cons, List.sum_append,
          List.sum_cons]
        omega
      omega

/-- The pool produced by the first `get_context` call on a fresh two-slot
pool. -/
def poolC6 : Pool :=
  { maxBrowsers := 2, maxContexts := 2,
    browsers := [(0, { contexts := [("ctx-a", { stamp := 1 })] })],
    contextToBrowser := [("ctx-a", 0)], nextId := 2 }

/-- C6 witness: on a fresh pool, `get_context "ctx-a"` transparently
allocates one context; the repeated call returns that same context and
leaves the pool unchanged. -/
theorem C6_witness :
    get_context poolC6 "ctx-a" = .ok (some { stamp := 1 }, poolC6) ∧
    (some { stamp := 1 } : Option Ctx).isSome = true ∧
    countContexts poolC6 = countContexts (Pool.init 2 2) + 1 :=
  C6_get_or_create (Pool.init 2 2) "ctx-a" (some { stamp := 1 }) poolC6
    rfl (by intro p hp; simp [Pool.init] at hp) rfl

/-!
## Correlator lemmas
-/

/-- An `input_response` for an unregistered (or already-resolved, hence
removed) request id changes nothing; the handler only logs the warning. -/
theorem resolve_unknown_noop (s : Corr) (rid v : String)
    (h : alGet s.pendingReqs rid = none) :
    handle_input_response s rid v = (s, true) := by
  unfold handle_input_response
  rw [h]

/-- An `input_response` for a registered request: no warning, the registry
entry is removed, a still-pending future is woken with exactly the
delivered value, and a future that is already done is left untouched. -/
theorem resolve_known_spec (s : Corr) (rid v : String) (fid : Nat)
    (h : alGet s.pendingReqs rid = some fid) :
    (handle_input_response s rid v).2 = false ∧
    alGet (handle_input_response s rid v).1.pendingReqs rid = none ∧
    (alGet s.futures fid = some .pending →
      alGet (handle_input_response s rid v).1.futures fid = some (.value v)) ∧
    (∀ st : FutSt, alGet s.futures fid = some st → st ≠ .pending →
      (handle_input_response s rid v).1.futures = s.futures) := by
  have hh : handle_input_response s rid v =
      ({ s with
         futures := if alGet s.futures fid = some FutSt.pending
           then alSet s.futures fid (FutSt.value v) else s.futures,
         pendingReqs := alDel s.pendingReqs rid }, false) := by
    unfold handle_input_response
    rw [h]
  rw [hh]
  refine ⟨rfl, alGet_alDel_self _ _, ?_, ?_⟩
  · intro hp
    simp only [if_pos hp]
    exact alGet_alSet_self _ _ _
  · intro st hst hne
    have hcond : ¬ alGet s.futures fid = some FutSt.pending := by
      rw [hst]
      intro hc
      exact hne (Option.some.inj hc)
    simp only [if_neg hcond]

/-- A done future is never touched again by a resolution step. -/
theorem resolve_done_preserved (s : Corr) (rid v : String) (fid : Nat)
    (st : FutSt) (hf : alGet s.futures fid = some st) (hst : st ≠ .pending) :
    alGet (handle_input_response s rid v).1.futures fid = some st := by
  unfold handle_input_response
  cases hp : alGet s.pendingReqs rid with
  | none => exact hf
  | some fid' =>
    simp only
    by_cases hff : alGet s.futures fid' = some FutSt.pending
    · simp only [if_pos hff]
      by_cases he : fid' = fid
      · subst he
        rw [hff] at hf
        exact absurd (Option.some.inj hf).symm hst
      · rw [alGet_alSet_ne _ _ _ _ he]
        exact hf
    · simp only [if_neg hff]
      exact hf

/-- A done future is never touched by the timeout branch. -/
theorem timeout_done_preserved (s : Corr) (rid : String) (fid : Nat)
    (st : FutSt) (hf : alGet s.futures fid = some st) (hst : st ≠ .pending) :
    alGet (timeout_fire s rid).futures fid = some st := by
  unfold timeout_fire
  cases hp : alGet s.pendingReqs rid with
  | none => exact hf
  | some fid' =>
    simp only
    by_cases hff : alGet s.futures fid' = some FutSt.pending
    · simp only [if_pos hff]
      by_cases he : fid' = fid
      · subst he
        rw [hff] at hf
        exact absurd (Option.some.inj hf).symm hst
      · rw [alGet_alSet_ne _ _ _ _ he]
        exact hf
    · simp only [if_neg hff]
      exact hf

theorem alGet_map_cancel (m : List (Nat × FutSt)) (pr : List (String × Nat))
    (fid : Nat) (st : FutSt) (hf : alGet m fid = some st)
    (hst : st ≠ .pending) :
    alGet (m.map (fun p =>
      if p.2 = FutSt.pending ∧ pr.any (fun q => q.2 = p.1)
        then (p.1, FutSt.cancelled) else p)) fid = some st := by
  induction m with
  | nil => simp [alGet] at hf
  | cons hd tl ih =>
    by_cases hk : hd.1 = fid
    · obtain ⟨k0, v0⟩ := hd
      simp only at hk
      subst hk
      have hv : v0 = st := by
        have h' := hf
        simp [alGet] at h'
        exact h'
      subst hv
      have hcond : ¬ (v0 = FutSt.pending ∧ pr.any (fun q => q.2 = k0)) := by
        intro hc
        exact hst hc.1
      simp only [List.map_cons, if_neg hcond]
      simp [alGet]
    · simp only [alGet, hk, if_false] at hf
      simp only [List.map_cons]
      by_cases hc : hd.2 = FutSt.pending ∧ pr.any (fun q => q.2 = hd.1)
      · rw [if_pos hc]
        simpa [alGet, hk] using ih hf
      · rw [if_neg hc]
        simpa [alGet, hk] using ih hf

/-- A done future is never touched by the cancellation sweep. -/
theorem cancel_done_preserved (s : Corr) (fid : Nat) (st : FutSt)
    (hf : alGet s.futures fid = some st) (hst : st ≠ .pending) :
    alGet (cancel_all s).futures fid = some st := by
  unfold cancel_all
  exact alGet_map_cancel s.futures s.pendingReqs fid st hf hst

/-- Once a waiter's future is done, no later event-loop turn (late or
duplicate resolve, timeout, bulk cancellation) ever changes it. -/
theorem corrRun_done_preserved (steps : List CorrStep) (s : Corr) (fid : Nat)
    (st : FutSt) (hf : alGet s.futures fid = some st) (hst : st ≠ .pending) :
    alGet (corrRun s steps).futures fid = some st := by
  induction steps generalizing s with
  | nil => exact hf
  | cons step rest ih =>
    have h1 : alGet (corrApply s step).futures fid = some st := by
      cases step with
      | resolveS rid v => exact resolve_done_preserved s rid v fid st hf hst
      | timeoutS rid => exact timeout_done_preserved s rid fid st hf hst
      | cancelS => exact cancel_done_preserved s fid st hf hst
    exact ih (corrApply s step) h1

/-- C2: exactly-once resolution.  (i) A resolve for an unknown request id is
a total no-op that only sets the warning flag — the handler never raises to
the client delivering a late or duplicate response.  (ii) A resolve for a
registered id returns no warning, removes the id from the registry, wakes a
still-pending waiter with exactly the delivered value, and leaves an
already-done future untouched (no second wake-up).  (iii) Consequently a
second resolve for the same id is a warned no-op.  (iv) Once a waiter's
future is resolved, no later sequence of event-loop turns (resolves,
timeouts, bulk cancellation) ever changes the observed outcome, so the
waiter observes exactly one of {value, timeout, cancellation}. -/
theorem C2_exactly_once :
    (∀ (s : Corr) (rid v : String), alGet s.pendingReqs rid = none →
      handle_input_response s rid v = (s, true)) ∧
    (∀ (s : Corr) (rid v : String) (fid : Nat),
      alGet s.pendingReqs rid = some fid →
      (handle_input_response s rid v).2 = false ∧
      alGet (handle_input_response s rid v).1.pendingReqs rid = none ∧
      (alGet s.futures fid = some .pending →
        alGet (handle_input_response s rid v).1.futures fid = some (.value v)) ∧
      (∀ st : FutSt, alGet s.futures fid = some st → st ≠ .pending →
        (handle_input_response s rid v).1.futures = s.futures)) ∧
    (∀ (s : Corr) (rid v w : String) (fid : Nat),
      alGet s.pendingReqs rid = some fid →
      handle_input_response ((handle_input_response s rid v).1) rid w =
        ((handle_input_response s rid v).1, true)) ∧
    (∀ (steps : List CorrStep) (s : Corr) (fid : Nat) (st : FutSt),
      alGet s.futures fid = some st → st ≠ .pending →
      alGet (corrRun s steps).futures fid = some st) := by
  refine ⟨resolve_unknown_noop, resolve_known_spec, ?_, corrRun_done_preserved⟩
  intro s rid v w fid h
  exact resolve_unknown_noop _ rid w (resolve_known_spec s rid v fid h).2.1

/-- A correlator with one registered pending request `"r1"`. -/
def corrC2 : Corr :=
  { futures := [(0, .pending)], pendingReqs := [("r1", 0)], nextFid := 1 }

/-- C2 witness: the exactly-once theorem at the concrete one-request
correlator: first resolve wins, registry entry gone, duplicate resolve is a
warned no-op, and the resolved value survives any later resolve/timeout/
cancel turns. -/
theorem C2_witness :
    (handle_input_response corrC2 "r1" "yes").2 = false ∧
    alGet (handle_input_response corrC2 "r1" "yes").1.pendingReqs "r1" = none ∧
    alGet (handle_input_response corrC2 "r1" "yes").1.futures 0 =
      some (.value "yes") ∧
    handle_input_response ((handle_input_response corrC2 "r1" "yes").1) "r1" "no" =
      ((handle_input_response corrC2 "r1" "yes").1, true) ∧
    alGet (corrRun (handle_input_response corrC2 "r1" "yes").1
      [.resolveS "r1" "no", .timeoutS "r1", .cancelS]).futures 0 =
      some (.value "yes") := by
  have hb := C2_exactly_once.2.1 corrC2 "r1" "yes" 0 rfl
  refine ⟨hb.1, hb.2.1, hb.2.2.1 rfl, ?_, ?_⟩
  · exact C2_exactly_once.2.2.1 corrC2 "r1" "yes" "no" 0 rfl
  · exact C2_exactly_once.2.2.2 [.resolveS "r1" "no", .timeoutS "r1", .cancelS]
      _ 0 (.value "yes") (hb.2.2.1 rfl) (by decide)

/-- C7: if `get_human_in_loop` is called and no matching `input_response`
arrives, the caller observes `asyncio.TimeoutError` (never a normal value),
and afterwards the request id is absent from `_pending_requests`. -/
theorem C7_timeout_cleanup (s : Corr) (rid : String) :
    (get_human_in_loop s rid none).2 = .timeoutErr ∧
    alGet (get_human_in_loop s rid none).1.pendingReqs rid = none := by
  constructor
  · rfl
  · show alGet (timeout_fire (register_request s rid) rid).pendingReqs rid = none
    unfold timeout_fire register_request
    simp only [alGet_alSet_self]
    exact alGet_alDel_self _ _
